import Mathlib

/-!
# Verification of the spamc client protocol engine

A shallow embedding of the `spamc` Go package (a SpamAssassin `spamd`
client).  Strings are modelled as `List Char` (bytes of the wire protocol
are modelled as `List Nat` where raw bytes matter), Go's `float64` values
are modelled exactly: a parsed number is a rational (`GoFloat.finite`),
with dedicated constructors for the IEEE infinities and NaN that
`strconv.ParseFloat` can produce.  Rounding to 64-bit precision and
overflow/underflow range errors are not modelled; no claim in this
development depends on them.  Fallible Go functions become `Option` /
`Except` valued Lean functions, and a Go `panic` is an `Except.error`
of the validation entry point that models it.
-/

namespace Spamc

/-- The character list of a string literal. -/
def chars (s : String) : List Char := s.data

/-- ASCII decimal digit test (`'0'-'9'`), as used by `strconv`. -/
def isDigitChar (c : Char) : Bool := decide ('0' ≤ c ∧ c ≤ '9')

/-- The ASCII whitespace accepted by Go's `unicode.IsSpace`
(space, `\t`, `\n`, `\v`, `\f`, `\r`); the claims never involve the
non-ASCII space code points. -/
def isGoSpace (c : Char) : Bool :=
  c = ' ' || c = '\t' || c = '\n' || c = Char.ofNat 11 || c = Char.ofNat 12 || c = '\r'

/-- ASCII lower-casing of one character, as `strings.ToLower` acts on
the ASCII inputs the claims are about. -/
def lowerChar (c : Char) : Char :=
  if 'A' ≤ c ∧ c ≤ 'Z' then Char.ofNat (c.toNat + 32) else c

/-- ASCII upper-casing of one character (`strings.ToUpper` on one byte). -/
def upperChar (c : Char) : Char :=
  if 'a' ≤ c ∧ c ≤ 'z' then Char.ofNat (c.toNat - 32) else c

/-- Model of `strings.ToLower` on an ASCII string. -/
def asciiLower (l : List Char) : List Char := l.map lowerChar

/-- Model of `strings.Split(s, sep)` for a one-character separator: the list of
chunks between occurrences of `c` (always non-empty). -/
def splitOnChar (c : Char) : List Char → List (List Char)
  | [] => [[]]
  | x :: xs =>
    if x = c then [] :: splitOnChar c xs
    else
      match splitOnChar c xs with
      | [] => [[x]]
      | h :: t => (x :: h) :: t

/-- Model of `strings.Join(l, " ")`. -/
def joinSpace : List (List Char) → List Char
  | [] => []
  | [x] => x
  | x :: xs => x ++ ' ' :: joinSpace xs

/-- Model of `strings.TrimSpace`, leading part. -/
def trimLeft (l : List Char) : List Char := l.dropWhile isGoSpace

/-- Model of `strings.TrimSpace`, trailing part. -/
def trimRight (l : List Char) : List Char := (l.reverse.dropWhile isGoSpace).reverse

/-- Model of `strings.TrimSpace`. -/
def trimSpace (l : List Char) : List Char := trimLeft (trimRight l)

/-- Model of `strings.HasPrefix`. -/
def hasPrefixL (l p : List Char) : Bool := l.take p.length = p

/-- Numeric value of a digit character. -/
def digitVal (c : Char) : Nat := c.toNat - 48

/-- Value of a list of decimal digit characters (most significant first). -/
def natFromChars (l : List Char) : Nat := l.foldl (fun acc c => 10 * acc + digitVal c) 0

/-- A value `strconv.ParseFloat` can return: an exact finite value
(modelled as a rational), an infinity, or NaN. -/
inductive GoFloat where
  | finite (q : ℚ)
  | inf (neg : Bool)
  | nan
deriving DecidableEq, Repr

/-- Strip one optional leading sign, returning whether it was `'-'`. -/
def stripSign (l : List Char) : Bool × List Char :=
  match l with
  | '+' :: t => (false, t)
  | '-' :: t => (true, t)
  | t => (false, t)

/-- Mantissa part of `strconv.ParseFloat`'s decimal syntax:
`digits[.digits]` with at least one digit overall; returns its exact
value and the unconsumed remainder. -/
def decimalMantissa (l : List Char) : Option (ℚ × List Char) :=
  let ip := l.takeWhile isDigitChar
  let r1 := l.dropWhile isDigitChar
  match r1 with
  | '.' :: r2 =>
    let fp := r2.takeWhile isDigitChar
    let r3 := r2.dropWhile isDigitChar
    if ip = [] ∧ fp = [] then none
    else some ((natFromChars ip : ℚ) + (natFromChars fp : ℚ) / ((10 : ℚ) ^ fp.length), r3)
  | _ => if ip = [] then none else some ((natFromChars ip : ℚ), r1)

/-- Scale a mantissa by a signed power of ten (the exponent part). -/
def applyExp (q : ℚ) (e : Option Int) : ℚ :=
  match e with
  | none => q
  | some e => if 0 ≤ e then q * (10 : ℚ) ^ e.toNat else q / (10 : ℚ) ^ (-e).toNat

/-- Optional exponent suffix `e[+-]digits` which must consume the whole
remainder; `none` means a syntax error. -/
def parseExpSuffix (l : List Char) : Option (Option Int) :=
  match l with
  | [] => some none
  | c :: rest =>
    if c = 'e' ∨ c = 'E' then
      let (eneg, r) := stripSign rest
      let ds := r.takeWhile isDigitChar
      let r2 := r.dropWhile isDigitChar
      if ds = [] ∨ r2 ≠ [] then none
      else some (some (if eneg then -(natFromChars ds : Int) else (natFromChars ds : Int)))
    else none

/-- Model of `strconv.ParseFloat(s, 64)`: optional sign, the special `inf` /
`infinity` / `nan` spellings (case-insensitive), or a decimal mantissa
with optional exponent.  (Hexadecimal floats and underscore separators
are not modelled; values are kept exact instead of rounded to 64 bits.) -/
def parseGoFloat (l : List Char) : Option GoFloat :=
  if l = [] then none
  else if asciiLower l = chars "nan" then some .nan
  else
    let (neg, r) := stripSign l
    if asciiLower r = chars "inf" ∨ asciiLower r = chars "infinity" then some (.inf neg)
    else
      match decimalMantissa r with
      | none => none
      | some (q, rest) =>
        match parseExpSuffix rest with
        | none => none
        | some e =>
          let v := applyExp q e
          some (.finite (if neg then -v else v))

/-- Model of `strconv.Atoi`: optional sign then one or more decimal digits,
consuming the whole string.  (The 64-bit range check is not modelled;
no claim involves out-of-range codes.) -/
def parseGoInt (l : List Char) : Option Int :=
  match l with
  | [] => none
  | _ =>
    let (neg, r) := stripSign l
    if r = [] then none
    else if r.all isDigitChar then
      some (if neg then -(natFromChars r : Int) else (natFromChars r : Int))
    else none

/-! ## Header model (`api.go`: `Header`, `Set`, `Get`, `normalizeKey`) -/

/-- The `Header` map, modelled as an association list with at most one
binding per key (Go map semantics: `assocSet` overwrites). -/
abbrev HeaderL := List (String × String)

/-- Model of `strings.ToLower` on a `String`. -/
def lowerString (s : String) : String := ⟨asciiLower s.data⟩

/-- Model of `strings.ToUpper(string(k[0])) + k[1:]` on an ASCII string. -/
def upperFirst (s : String) : String :=
  match s.data with
  | [] => ""
  | c :: t => ⟨upperChar c :: t⟩

/-- Model of `Header.normalizeKey` (api.go lines 91-105). -/
def normalizeKey (k : String) : String :=
  if k.data.length = 0 then ""
  else
    let low := lowerString k
    if low = "didremove" ∨ low = "did-remove" then "DidRemove"
    else if low = "didset" ∨ low = "did-set" then "DidSet"
    else upperFirst low

/-- Go map update `h[k] = v`. -/
def assocSet (h : HeaderL) (k v : String) : HeaderL :=
  (k, v) :: h.filter (fun p => ¬ p.1 = k)

/-- Model of `Header.Get` (api.go lines 73-76): look the normalized key up. -/
def headerGet (h : HeaderL) (k : String) : Option String :=
  (h.find? (fun p => p.1 == normalizeKey k)).map Prod.snd

/-- One comma-separated element admissible for the `Set` / `Remove`
headers (compared after lower-casing). -/
def setElemOk (x : List Char) : Bool :=
  x = [] || x = chars "local" || x = chars "remote"

/-- Model of `Header.Set` (api.go lines 50-69).  A Go `panic` on an enumerated
header whose value is outside its vocabulary is modelled as
`Except.error` carrying the panic message. -/
def headerSet (h : HeaderL) (k v : String) : Except String HeaderL :=
  if normalizeKey k = "Message-class" then
    if lowerString v ≠ "" ∧ lowerString v ≠ "spam" ∧ lowerString v ≠ "ham" then
      .error ("unknown value for " ++ normalizeKey k ++ " header: " ++ lowerString v)
    else .ok (assocSet h (normalizeKey k) v)
  else if normalizeKey k = "Set" ∨ normalizeKey k = "Remove" then
    match (splitOnChar ',' (asciiLower v.data)).find? (fun x => ¬ setElemOk x) with
    | some x => .error ("unknown value for " ++ normalizeKey k ++ " header: " ++ String.mk x)
    | none => .ok (assocSet h (normalizeKey k) v)
  else .ok (assocSet h (normalizeKey k) v)

deriving instance DecidableEq for Except

/-! ## Score parser (`spamc.go`: `parseSpamHeader`, lines 300-339) -/

/-- The distinct failure modes of `parseSpamHeader`, by their message. -/
inductive SpamErr where
  | headerMissing
  | headerEmpty
  | unexpectedData (s : List Char)
  | unknownStatus (s : List Char)
  | noParseScore
  | noParseBase
deriving DecidableEq, Repr

/-- The `<score> / <base-score>` half of the verdict value (spamc.go
lines 325-338, shared by all four accepted boolean tokens). -/
def parseScores (isSpam : Bool) (s1 : List Char) :
    Except SpamErr (Bool × GoFloat × GoFloat) :=
  match splitOnChar '/' s1 with
  | [a, b] =>
    match parseGoFloat (trimSpace a) with
    | none => .error .noParseScore
    | some score =>
      match parseGoFloat (trimSpace b) with
      | none => .error .noParseBase
      | some base => .ok (isSpam, score, base)
  | _ => .error (.unexpectedData s1)

/-- The verdict-value parse (spamc.go lines 310-327) applied to a
non-empty header value: the two-part split around `';'`, the
case-insensitive boolean token, then the score half. -/
def parseSpamValue (spam : List Char) : Except SpamErr (Bool × GoFloat × GoFloat) :=
  match splitOnChar ';' spam with
  | [s0, s1] =>
    if asciiLower (trimSpace s0) = chars "true" ∨ asciiLower (trimSpace s0) = chars "yes" then
      parseScores true s1
    else if asciiLower (trimSpace s0) = chars "false" ∨ asciiLower (trimSpace s0) = chars "no" then
      parseScores false s1
    else .error (.unknownStatus s0)
  | _ => .error (.unexpectedData (spam.take 1))

/-- Model of `parseSpamHeader` (spamc.go lines 300-339).  The first guard is the
source's `!ok || len(spam) == 0` (line 302); the second `headerEmpty`
guard mirrors the source's follow-up `len(spam) == 0` check (line 306),
which the first guard shadows. -/
def parseSpamHeader (respHeaders : HeaderL) :
    Except SpamErr (Bool × GoFloat × GoFloat) :=
  match headerGet respHeaders "Spam" with
  | none => .error .headerMissing
  | some spam =>
    if spam.data = [] then .error .headerMissing
    else if spam.data = [] then .error .headerEmpty
    else parseSpamValue spam.data

/-! ## Symbol-list body (`api.go` `Symbols`, lines 219-228, and
`readBody`, spamc.go lines 276-294) -/

/-- Model of `readBody`: every line of the remaining stream re-joined with a
trailing `"\r\n"` each. -/
def readBodyJoin (lines : List (List Char)) : List Char :=
  (lines.map (fun l => l ++ chars "\r\n")).flatten

/-- The symbol-list split of `Client.Symbols` (api.go lines 224-228):
split the trimmed body on commas, collapsing the single empty token to
the empty list. -/
def symbolsOfBody (body : List Char) : List (List Char) :=
  let s := splitOnChar ',' (trimSpace body)
  if s = [[]] then [] else s

/-! ## Status line parser (`spamc.go`: `parseCodeLine`, lines 219-265) -/

/-- Model of `clientProtocolVersion` (spamc.go line 22). -/
def clientProtocolVersion : List Char := chars "1.5"

/-- Model of `serverProtocolVersions` (spamc.go line 37). -/
def serverProtocolVersions : List (List Char) := [chars "1.0", chars "1.1"]

/-- Model of `supportedVersion` (spamc.go lines 267-274). -/
def supportedVersion (v : List Char) : Bool := serverProtocolVersions.contains v

/-- Model of `errorMessages` (spamc.go lines 40-57): the 16 exit-code meanings. -/
def errorMessagesTable : List (Int × String) :=
  [(64, "Command line usage error"),
   (65, "Data format error"),
   (66, "Cannot open input"),
   (67, "Addressee unknown"),
   (68, "Host name unknown"),
   (69, "Service unavailable"),
   (70, "Internal software error"),
   (71, "System error"),
   (72, "Critical OS file missing"),
   (73, "Can't create (user) output file"),
   (74, "Input/output error"),
   (75, "Temp failure; user is invited to retry"),
   (76, "Remote error in protocol"),
   (77, "Permission denied"),
   (78, "Configuration error"),
   (79, "Read timeout")]

/-- Model of `msg, ok := errorMessages[code]` — the Go map lookup. -/
def errorMessagesLookup (c : Int) : Option String :=
  (errorMessagesTable.find? (fun p => p.1 == c)).map Prod.snd

/-- The failure modes of `parseCodeLine`, by source site.  `spamdCode`
is the non-zero return-code error, carrying the parsed code, the known
meaning when the code is in the `errorMessages` table, and the raw
trailing text of the line. -/
inductive CodeLineError where
  | eof
  | shortResponse (line : List Char)
  | unrecognised (line : List Char)
  | unexpectedVersion (v : List Char)
  | unknownVersion (v : List Char)
  | codeParse (tok : List Char)
  | spamdCode (code : Int) (known : Option String) (text : List Char)
deriving DecidableEq, Repr

/-- The return-code half of `parseCodeLine` (spamc.go lines 251-264),
applied to the space-split of `line[10:]`: `s[0]` through `Atoi`, a
non-zero code decorated from the table, the rest rejoined as the raw
trailing text. -/
def parseCodeAndText : List (List Char) → Option CodeLineError
  | [] => some (.codeParse [])
  | tok :: rest =>
    match parseGoInt tok with
    | none => some (.codeParse tok)
    | some c =>
      if c = 0 then none
      else some (.spamdCode c (errorMessagesLookup c) (joinSpace rest))

/-- Model of `parseCodeLine` (spamc.go lines 219-265) applied to one status
line.  `none` is a successful (code 0) parse. -/
def parseCodeLineStr (isPing : Bool) (line : List Char) : Option CodeLineError :=
  if line.length < 11 then some (.shortResponse line)
  else if ¬ hasPrefixL line (chars "SPAMD/") then some (.unrecognised line)
  else
    let version := (line.drop 6).take 3
    if isPing ∧ version ≠ clientProtocolVersion then some (.unexpectedVersion version)
    else if ¬ isPing ∧ ¬ supportedVersion version then some (.unknownVersion version)
    else parseCodeAndText (splitOnChar ' ' (line.drop 10))

/-! ## Response frame reader and the TELL flow (`spamc.go`
`readResponse`, `api.go` `Tell`) -/

/-- Failures of `readResponse` (spamc.go lines 197-217). -/
inductive RespErr where
  | status (e : CodeLineError)
  | headersRead
  | headerPanic
deriving DecidableEq, Repr

/-- Model of `textproto.ReadMIMEHeader`, simplified to the shapes the claims
exercise: `"Key: value"` lines up to a blank line (no continuation
lines; key canonicalization is omitted because `readResponse` re-feeds
every key through `Header.Set`, whose `normalizeKey` is already
case-insensitive).  `none` models the read error for a stream that
ends before the blank line or a malformed header line. -/
def readMimeHeaders : List (List Char) → Option (List (String × String) × List (List Char))
  | [] => none
  | l :: rest =>
    if l = [] then some ([], rest)
    else
      match l.findIdx? (fun c => c = ':') with
      | none => none
      | some i =>
        match readMimeHeaders rest with
        | none => none
        | some (hs, rem) =>
          some ((String.mk (l.take i), String.mk (trimLeft (l.drop (i + 1)))) :: hs, rem)

/-- The `headers.Set` loop of `readResponse` (spamc.go lines 211-214);
a validation panic surfaces as `Except.error`. -/
def buildHeader (pairs : List (String × String)) : Except String HeaderL :=
  pairs.foldlM (fun h p => headerSet h p.1 p.2) []

/-- Model of `readResponse` (spamc.go lines 197-217): status line (never a PING
here), then MIME headers; returns the header collection and the
remaining body lines. -/
def readResponse (lines : List (List Char)) :
    Except RespErr (HeaderL × List (List Char)) :=
  match lines with
  | [] => .error (.status .eof)
  | l :: rest =>
    match parseCodeLineStr false l with
    | some e => .error (.status e)
    | none =>
      match readMimeHeaders rest with
      | none => .error .headersRead
      | some (pairs, rem) =>
        match buildHeader pairs with
        | .error _ => .error .headerPanic
        | .ok h => .ok (h, rem)

/-- A Go error value as the `err.(Error)` type assertion in `Tell`
(api.go line 431) sees it: `typed` is the package's `Error` struct
(api.go lines 28-34), everything else (`errors.New`, `errors.Errorf`,
`errors.Wrap`/`Wrapf` results) fails the assertion. -/
inductive GoErr where
  | plain (msg : String)
  | wrapped (msg : String) (cause : GoErr)
  | typed (code : Int) (line : String)
deriving DecidableEq, Repr

/-- Model of `serr, ok := err.(Error); ok && serr.Code == 69` — the assertion
does not unwrap `errors.Wrap` chains. -/
def goErrCode69 : GoErr → Bool
  | .typed 69 _ => true
  | _ => false

/-- The error sites of `Client.send` (spamc.go lines 60-143): dialing,
the empty-command guard, size detection, the buffered header write, and
the copy to the connection.  This enumerates every `return`ed error of
`send`/`write`/`dial`. -/
inductive SendErrSite where
  | dialFailed (cause : String)
  | emptyCommand
  | sizeUnknown (cause : String)
  | printfLine (cause : String)
  | copyFailed (cause : String)
  | closeWrite (cause : String)
deriving DecidableEq, Repr

/-- The Go error value each `send` failure site produces; all are
built with `errors.New` / `errors.Wrap(f)` / plain I/O errors, never
the typed `Error` struct. -/
def SendErrSite.toGoErr : SendErrSite → GoErr
  | .dialFailed c => .wrapped "could not dial" (.wrapped "could not connect to spamd" (.plain c))
  | .emptyCommand => .plain "empty command"
  | .sizeUnknown c => .wrapped "could not determine size of message" (.plain c)
  | .printfLine c => .plain c
  | .copyFailed c => .wrapped "could not send to spamd" (.plain c)
  | .closeWrite c => .plain c

/-- Result of a TELL call (api.go lines 396-400). -/
structure RespTell where
  didSet : List (List Char)
  didRemove : List (List Char)
deriving DecidableEq, Repr

/-- The `DidSet` / `DidRemove` extraction of `Tell` (api.go lines
443-449): split on commas when the header is present, else nil. -/
def tellHdrList (hdrs : HeaderL) (k : String) : List (List Char) :=
  match headerGet hdrs k with
  | some v => splitOnChar ',' v.data
  | none => []

/-- The error a `Tell` call surfaces. -/
inductive TellErr where
  | sendFailed (e : GoErr)
  | tellDisabled
  | respParse (e : RespErr)
deriving DecidableEq, Repr

/-- Model of `Client.Tell` (api.go lines 422-452), given the outcome of `send`
and the response lines: the code-69 type assertion is applied to the
`send` error only; a response-parsing failure is wrapped as
"could not parse spamd response". -/
def tellModel (sendResult : Option SendErrSite) (respLines : List (List Char)) :
    Except TellErr RespTell :=
  match sendResult with
  | some s =>
    if goErrCode69 s.toGoErr then .error .tellDisabled
    else .error (.sendFailed s.toGoErr)
  | none =>
    match readResponse respLines with
    | .error e => .error (.respParse e)
    | .ok (hdrs, _) =>
      .ok ⟨tellHdrList hdrs "DidSet", tellHdrList hdrs "DidRemove"⟩

/-! ## Message framing (`part_005`: `rearrangeMessageReader`,
lines 597-728).  The message byte stream is a `List Nat`. -/

/-- The CRLF line terminator, as bytes. -/
def crlfB : List Nat := [13, 10]

/-- The `isASCII` closure (part_005 lines 601-608). -/
def isAsciiBytes (l : List Nat) : Bool := l.all (fun c => c ≤ 127)

/-- Model of `bufio.ReadSlice('\n')`: the prefix up to and including the first
newline byte, the remainder, and whether a newline was found (when not,
the Go call returns the whole rest together with an error). -/
def readSliceNL : List Nat → List Nat × List Nat × Bool
  | [] => ([], [], false)
  | c :: t =>
    if c = 10 then ([10], t, true)
    else
      match readSliceNL t with
      | (line, rest, ok) => (c :: line, rest, ok)

/-- Outcome of the header-scanning loop of `rearrangeMessageReader`
(part_005 lines 617-677): the `headers` buffer, the `rest` buffer (only
written on the error exits), the unconsumed remainder of the stream,
and whether the blank separator line was found and consumed. -/
structure ScanResult where
  headers : List Nat
  rest : List Nat
  remaining : List Nat
  blankConsumed : Bool
deriving DecidableEq, Repr

/-- The header-scanning loop.  One fuel unit per iteration; every
iteration consumes at least one byte, so `scanHeaders` below never runs
out.  Branches follow the source order: `Peek(2)` failure (fewer than
two bytes left), the `"\r\n"` blank line, a whitespace-led continuation
line (appended only when a previous header exists), and an ordinary
header line (`ReadSlice` error, missing `':'`, and non-ASCII checks, in
that order, each pushing the offending line into `rest` and stopping). -/
def scanHeadersF : Nat → List Nat → List Nat → ScanResult
  | 0, hdrs, input => ⟨hdrs, [], input, false⟩
  | fuel + 1, hdrs, input =>
    match input with
    | [] => ⟨hdrs, [], [], false⟩
    | [c] => ⟨hdrs, [], [c], false⟩
    | c1 :: c2 :: t =>
      if c1 = 13 ∧ c2 = 10 then ⟨hdrs, [], t, true⟩
      else if c1 = 32 ∨ c1 = 9 then
        if hdrs = [] then ⟨hdrs, [], input, false⟩
        else
          match readSliceNL input with
          | (line, rest, ok) =>
            if ¬ ok then ⟨hdrs, line, rest, false⟩
            else if ¬ isAsciiBytes line then ⟨hdrs, line, rest, false⟩
            else scanHeadersF fuel (hdrs ++ line) rest
      else
        match readSliceNL input with
        | (line, rest, ok) =>
          if ¬ ok then ⟨hdrs, line, rest, false⟩
          else if ¬ line.contains 58 then ⟨hdrs, line, rest, false⟩
          else if ¬ isAsciiBytes line then ⟨hdrs, line, rest, false⟩
          else scanHeadersF fuel (hdrs ++ line) rest

/-- The header scan of the whole message. -/
def scanHeaders (msg : List Nat) : ScanResult := scanHeadersF (msg.length + 1) [] msg

/-- The `isTerminated` closure (part_005 lines 679-701): seek two bytes
back from the end and compare with CRLF; messages shorter than two
bytes fail the seek and count as unterminated. -/
def msgTerminated (msg : List Nat) : Bool :=
  decide (2 ≤ msg.length ∧ msg.drop (msg.length - 2) = crlfB)

/-- Model of `rearrangeMessageReader` (part_005 lines 597-728): the bytes the
returned reader yields (headers, a CRLF separator, the `rest` buffer,
the unconsumed remainder, and a final CRLF only when the source was not
terminated) together with the adjusted size.  The source adds 2 to
`size` up front, subtracts 2 when the blank separator was consumed, and
adds 2 when a terminator is appended. -/
def rearrangeMessage (msg : List Nat) (size : Int) : List Nat × Int :=
  let s := scanHeaders msg
  let size1 := if s.blankConsumed then size else size + 2
  let terminated := msgTerminated msg
  let size2 := if terminated then size1 else size1 + 2
  let endPart := if terminated then ([] : List Nat) else crlfB
  (s.headers ++ crlfB ++ s.rest ++ s.remaining ++ endPart, size2)

/-! ## Report parser (`spamc.go`: `parseReport`, lines 395-447, and the
row regexp `reTableLine`, line 375).  Input lines come from
`textproto.ReadLine` and therefore contain no newline byte; the regexp
model below relies on that. -/

/-- One parsed table row. -/
structure ReportRow where
  points : ℚ
  rule : List Char
  description : List Char
deriving DecidableEq, Repr

/-- The loop state of `parseReport`: accumulated intro text, rows so
far, and the `table` mode flag. -/
structure ReportState where
  intro : List Char
  table : List ReportRow
  tableMode : Bool
deriving DecidableEq, Repr

/-- RE2's `\s` class: space, `\t`, `\n`, `\f`, `\r`. -/
def isReSpace (c : Char) : Bool :=
  c = ' ' || c = '\t' || c = '\n' || c = Char.ofNat 12 || c = '\r'

/-- The `[0-9.]` class. -/
def isDigitDot (c : Char) : Bool := isDigitChar c || c = '.'

/-- The `[A-Z0-9_]` class. -/
def isRuleChar (c : Char) : Bool :=
  decide ('A' ≤ c ∧ c ≤ 'Z') || isDigitChar c || c = '_'

/-- Matching `(-?[0-9.]+)\s+([A-Z0-9_]+)\s+(.+)` at one fixed start
position, after the optional sign: adjacent quantifiers have disjoint
character classes, so each is its maximal run, except that when `\s+`
before `(.+)` reaches the end of the line the backtracking search gives
one (non-newline) character back to `(.+)`. -/
def matchRowCore (sign : List Char) (r : List Char) :
    Option (List Char × List Char × List Char) :=
  let d1 := r.takeWhile isDigitDot
  if d1 = [] then none
  else
    let r1 := r.dropWhile isDigitDot
    let w1 := r1.takeWhile isReSpace
    if w1 = [] then none
    else
      let r2 := r1.dropWhile isReSpace
      let g2 := r2.takeWhile isRuleChar
      if g2 = [] then none
      else
        let r3 := r2.dropWhile isRuleChar
        let w2 := r3.takeWhile isReSpace
        if w2 = [] then none
        else
          let r4 := r3.dropWhile isReSpace
          if r4 ≠ [] then some (sign ++ d1, g2, r4)
          else
            match w2.reverse with
            | c :: _ :: _ => if c = '\n' then none else some (sign ++ d1, g2, [c])
            | _ => none

/-- Matching at one start position: `-?` takes a leading minus when one
is there (without it `[0-9.]+` cannot start on `'-'`). -/
def matchRowAt (l : List Char) : Option (List Char × List Char × List Char) :=
  match l with
  | '-' :: t => matchRowCore ['-'] t
  | _ => matchRowCore [] l

/-- Model of `reTableLine.FindAllStringSubmatch(line, -1)[0]`: the leftmost
match 's first capture groups. -/
def reTableFind : List Char → Option (List Char × List Char × List Char)
  | [] => none
  | l@(_ :: t) =>
    match matchRowAt l with
    | some m => some m
    | none => reTableFind t

/-- The fixed continuation indentation marker (spamc.go line 439). -/
def contIndent : List Char := '\n' :: List.replicate 28 ' '

/-- One iteration of the `parseReport` loop (spamc.go lines 408-442),
with the source's `switch` branch order. -/
def reportStep (st : ReportState) (line : List Char) : ReportState :=
  if ¬ st.tableMode ∧ hasPrefixL line (chars " pts rule name") then
    { st with tableMode := true }
  else if st.tableMode ∧ hasPrefixL line (chars "---- -") then st
  else if ¬ st.tableMode then { st with intro := st.intro ++ line ++ ['\n'] }
  else
    match reTableFind line with
    | some (p, rule, desc) =>
      match parseGoFloat p with
      | some (.finite q) => { st with table := st.table ++ [⟨q, rule, desc⟩] }
      | _ => st
    | none =>
      match st.table.getLast? with
      | none => st
      | some row =>
        { st with
          table := st.table.dropLast ++
            [{ row with description := row.description ++ contIndent ++ trimSpace line }] }

/-- The parsed report: trimmed intro and the rows. -/
structure GoReport where
  intro : List Char
  table : List ReportRow
deriving DecidableEq, Repr

/-- Model of `parseReport` (spamc.go lines 395-447) over a finite stream of
lines.  The Go loop's only error source is `ReadLine`, which on a
finite in-memory stream fails only with `io.EOF`, the loop's exit
condition; accordingly the model is total and the `return report, err`
branch has no counterpart. -/
def parseReport (lines : List (List Char)) : GoReport :=
  let st := lines.foldl reportStep ⟨[], [], false⟩
  ⟨trimSpace st.intro, st.table⟩

/-! ## Lemmas about the string utilities -/

theorem splitOnChar_ne_nil (c : Char) (l : List Char) : splitOnChar c l ≠ [] := by
  cases l with
  | nil => simp [splitOnChar]
  | cons x xs =>
    simp only [splitOnChar]
    split
    · simp
    · split
      · simp
      · simp

theorem splitOnChar_not_mem {c : Char} : ∀ {l : List Char}, c ∉ l →
    splitOnChar c l = [l] := by
  intro l
  induction l with
  | nil => intro _; rfl
  | cons x xs ih =>
    intro h
    have hx : ¬ x = c := fun he => h (by simp [he])
    have hxs : c ∉ xs := fun hm => h (List.mem_cons_of_mem _ hm)
    simp only [splitOnChar, if_neg hx, ih hxs]

theorem splitOnChar_append {c : Char} (y : List Char) : ∀ {x : List Char}, c ∉ x →
    splitOnChar c (x ++ c :: y) = x :: splitOnChar c y := by
  intro x
  induction x with
  | nil => intro _; simp [splitOnChar]
  | cons a as ih =>
    intro h
    have ha : ¬ a = c := fun he => h (by simp [he])
    have has : c ∉ as := fun hm => h (List.mem_cons_of_mem _ hm)
    simp only [List.cons_append, splitOnChar, if_neg ha, List.append_eq]
    rw [ih has]

theorem joinSpace_cons_cons (x : Char) (h : List Char) (t : List (List Char)) :
    joinSpace ((x :: h) :: t) = x :: joinSpace (h :: t) := by
  cases t <;> simp [joinSpace]

theorem joinSpace_splitOnChar : ∀ l : List Char, joinSpace (splitOnChar ' ' l) = l := by
  intro l
  induction l with
  | nil => rfl
  | cons x xs ih =>
    simp only [splitOnChar]
    by_cases hx : x = ' '
    · rw [if_pos hx]
      obtain ⟨h, t, ht⟩ : ∃ h t, splitOnChar ' ' xs = h :: t := by
        cases hs : splitOnChar ' ' xs with
        | nil => exact absurd hs (splitOnChar_ne_nil _ _)
        | cons h t => exact ⟨h, t, rfl⟩
      rw [ht]
      have : joinSpace ([] :: h :: t) = ' ' :: joinSpace (h :: t) := by
        simp [joinSpace]
      rw [this, ← ht, ih, hx]
    · rw [if_neg hx]
      cases hs : splitOnChar ' ' xs with
      | nil => exact absurd hs (splitOnChar_ne_nil _ _)
      | cons h t => rw [← hs, hs, joinSpace_cons_cons, ← hs, ih]

theorem dropWhile_append_all {p : Char → Bool} : ∀ {w : List Char},
    (∀ c ∈ w, p c = true) → ∀ l : List Char, (w ++ l).dropWhile p = l.dropWhile p := by
  intro w
  induction w with
  | nil => intro _ l; rfl
  | cons a as ih =>
    intro h l
    have ha : p a = true := h a (by simp)
    simp only [List.cons_append, List.dropWhile_cons, ha, if_pos]
    exact ih (fun c hc => h c (List.mem_cons_of_mem _ hc)) l

theorem dropWhile_cons_neg {p : Char → Bool} {x : Char} (xs : List Char)
    (h : ¬ p x = true) : (x :: xs).dropWhile p = x :: xs := by
  simp [List.dropWhile_cons, h]

/-- Trimming a value padded with whitespace on both sides recovers the
value, when the value itself starts and ends with non-whitespace. -/
theorem trimSpace_sandwich {b w1 w2 : List Char}
    (hb : ∀ c ∈ b, isGoSpace c = false) (hne : b ≠ [])
    (h1 : ∀ c ∈ w1, isGoSpace c = true) (h2 : ∀ c ∈ w2, isGoSpace c = true) :
    trimSpace (w1 ++ b ++ w2) = b := by
  obtain ⟨x, xs, hx⟩ : ∃ x xs, b.reverse = x :: xs := by
    cases hr : b.reverse with
    | nil => exact absurd (by simpa using congrArg List.reverse hr) hne
    | cons x xs => exact ⟨x, xs, rfl⟩
  have hxb : x ∈ b := by
    have : x ∈ b.reverse := by rw [hx]; simp
    simpa using this
  have hrev : (w1 ++ b ++ w2).reverse = w2.reverse ++ (x :: (xs ++ w1.reverse)) := by
    simp [hx]
  have htr : trimRight (w1 ++ b ++ w2) = w1 ++ b := by
    unfold trimRight
    rw [hrev, dropWhile_append_all (by intro c hc; exact h2 c (by simpa using hc)),
      dropWhile_cons_neg _ (by simp [hb x hxb])]
    have hb2 : b = xs.reverse ++ [x] := by
      have := congrArg List.reverse hx
      simpa using this
    have : (x :: (xs ++ w1.reverse)).reverse = w1 ++ b := by
      rw [hb2]; simp
    rw [this]
  unfold trimSpace
  rw [htr]
  unfold trimLeft
  rw [dropWhile_append_all h1]
  cases b with
  | nil => exact absurd rfl hne
  | cons y ys => exact dropWhile_cons_neg _ (by simp [hb y (by simp)])

/-! ## C8: symbol-list body parsing -/

/-- C8: a SYMBOLS body consisting of the single line `"A,B,C"` parses
to the symbol list `["A","B","C"]`, and a body that is a single empty
line parses to the empty list rather than to `[""]`. -/
theorem symbols_body_parsing :
    symbolsOfBody (readBodyJoin [chars "A,B,C"]) = [chars "A", chars "B", chars "C"] ∧
    symbolsOfBody (readBodyJoin [[]]) = [] := by decide

/-! ## C5: the dedicated TELL-disabled error is unreachable -/

/-- C5 (code-bug evidence): a TELL exchange whose response status line
carries return code 69 surfaces the generic wrapped daemon error
("could not parse spamd response: spamd returned code 69: Service
unavailable: ..."), and the dedicated `tellDisabled` error ("TELL
commands are not enabled, set the --allow-tell switch") is unreachable
for every send outcome and every response: the code-69 type assertion
is applied to the `send` error, which is never the typed `Error`. -/
theorem tell_code69_generic :
    tellModel none [chars "SPAMD/1.1 69 NOTELL"] =
      .error (.respParse (.status (.spamdCode 69 (some "Service unavailable")
        (chars "NOTELL")))) ∧
    ∀ (s : Option SendErrSite) (r : List (List Char)),
      tellModel s r ≠ .error .tellDisabled := by
  refine ⟨by decide, ?_⟩
  intro s r
  cases s with
  | none =>
    simp only [tellModel]
    cases hr : readResponse r with
    | error e => simp
    | ok p => cases p; simp
  | some site =>
    cases site <;> simp [tellModel, SendErrSite.toGoErr, goErrCode69]

/-! ## C3 / C6: status line parsing -/

/-- Decomposition of `parseCodeLineStr` on a well-shaped status line:
the length and prefix guards pass, the version is the three characters
after `"SPAMD/"`, and the remainder after the following character is
split on spaces for the code and trailing text. -/
theorem parseCodeLineStr_structured (ping : Bool) (v rest : List Char)
    (h3 : v.length = 3) (hr : rest ≠ []) :
    parseCodeLineStr ping (chars "SPAMD/" ++ (v ++ ' ' :: rest)) =
      (if ping ∧ v ≠ clientProtocolVersion then some (.unexpectedVersion v)
      else if ¬ ping ∧ ¬ supportedVersion v then some (.unknownVersion v)
      else parseCodeAndText (splitOnChar ' ' rest)) := by
  have hrl : 1 ≤ rest.length := by
    cases rest with
    | nil => exact absurd rfl hr
    | cons a as => simp
  have hlen : (chars "SPAMD/" ++ (v ++ ' ' :: rest)).length = 10 + rest.length := by
    have h6 : (chars "SPAMD/").length = 6 := rfl
    simp only [List.length_append, List.length_cons, h6, h3]
    omega
  have hpre : hasPrefixL (chars "SPAMD/" ++ (v ++ ' ' :: rest)) (chars "SPAMD/") = true := by
    unfold hasPrefixL
    rw [List.take_left' rfl]
    simp
  have h_drop6 : (chars "SPAMD/" ++ (v ++ ' ' :: rest)).drop 6 = v ++ ' ' :: rest :=
    List.drop_left' rfl
  have h_take3 : (v ++ ' ' :: rest).take 3 = v := List.take_left' h3
  have h_drop10 : (chars "SPAMD/" ++ (v ++ ' ' :: rest)).drop 10 = rest := by
    have heq : chars "SPAMD/" ++ (v ++ ' ' :: rest) = (chars "SPAMD/" ++ v ++ [' ']) ++ rest := by
      simp
    rw [heq]
    refine List.drop_left' ?_
    have h6 : (chars "SPAMD/").length = 6 := rfl
    simp [h6, h3]
  unfold parseCodeLineStr
  rw [hlen]
  rw [if_neg (by omega)]
  rw [if_neg (by simp [hpre])]
  simp only [h_drop6, h_take3, h_drop10]

/-- C3: the status line `"SPAMD/1.1 65 EX_DATAERR"` parses to the
error carrying code 65 and the message "Data format error"; in
general, for a status line with either understood server version and a
non-zero numeric return code, `parseCodeLine` returns the non-zero-code
error, whose attached meaning is the fixed table entry exactly for the
16 known codes 64-79, and which otherwise carries the raw trailing
text. -/
theorem status_line_nonzero_code (v tok text : List Char) (c : Int)
    (hv : v ∈ serverProtocolVersions) (hc : parseGoInt tok = some c)
    (h0 : c ≠ 0) (hsp : ' ' ∉ tok) :
    parseCodeLineStr false (chars "SPAMD/" ++ (v ++ ' ' :: (tok ++ ' ' :: text))) =
      some (.spamdCode c (errorMessagesLookup c) text) ∧
    (∀ k : Int, (errorMessagesLookup k).isSome ↔ 64 ≤ k ∧ k ≤ 79) ∧
    parseCodeLineStr false (chars "SPAMD/1.1 65 EX_DATAERR") =
      some (.spamdCode 65 (some "Data format error") (chars "EX_DATAERR")) := by
  refine ⟨?_, ?_, by decide⟩
  · have hv2 : v = chars "1.0" ∨ v = chars "1.1" := by
      simpa [serverProtocolVersions] using hv
    have h3 : v.length = 3 := by
      rcases hv2 with h | h <;> rw [h] <;> rfl
    have hsup : supportedVersion v = true := by
      rcases hv2 with h | h <;> rw [h] <;> rfl
    rw [parseCodeLineStr_structured false v _ h3 (by simp)]
    rw [if_neg (by simp), if_neg (by simp [hsup])]
    rw [splitOnChar_append _ hsp]
    simp only [parseCodeAndText, hc, if_neg h0, joinSpace_splitOnChar]
  · intro k
    have hmap : ∀ (o : Option (Int × String)), (o.map Prod.snd).isSome = o.isSome := by
      intro o; cases o <;> rfl
    unfold errorMessagesLookup
    rw [hmap, List.find?_isSome]
    simp [errorMessagesTable]
    omega

/-- C3 witness: the general part applied to the concrete status line
`"SPAMD/1.0 76 bad header"`. -/
theorem status_line_nonzero_code_w :
    parseCodeLineStr false
      (chars "SPAMD/" ++ (chars "1.0" ++ ' ' :: (chars "76" ++ ' ' :: chars "bad header"))) =
      some (.spamdCode 76 (errorMessagesLookup 76) (chars "bad header")) :=
  (status_line_nonzero_code (chars "1.0") (chars "76") (chars "bad header") 76
    (by decide) (by decide) (by decide) (by decide)).1

/-- C6: version checking branches on call kind.  For any
three-character version token, a PING parse succeeds exactly for the
client's own version token "1.5" and fails with the unexpected-version
error otherwise, while a non-PING parse succeeds exactly for the two
known server versions "1.0" and "1.1" and fails with the
unknown-server-protocol-version error otherwise, in particular for
"1.5". -/
theorem version_check_branches (v : List Char) (h3 : v.length = 3) :
    (parseCodeLineStr true (chars "SPAMD/" ++ (v ++ ' ' :: chars "0 EX_OK")) = none ↔
      v = clientProtocolVersion) ∧
    (parseCodeLineStr false (chars "SPAMD/" ++ (v ++ ' ' :: chars "0 EX_OK")) = none ↔
      (v = chars "1.0" ∨ v = chars "1.1")) ∧
    (v ≠ clientProtocolVersion →
      parseCodeLineStr true (chars "SPAMD/" ++ (v ++ ' ' :: chars "0 EX_OK")) =
        some (.unexpectedVersion v)) ∧
    (¬ (v = chars "1.0" ∨ v = chars "1.1") →
      parseCodeLineStr false (chars "SPAMD/" ++ (v ++ ' ' :: chars "0 EX_OK")) =
        some (.unknownVersion v)) := by
  have hstr := fun ping => parseCodeLineStr_structured ping v (chars "0 EX_OK") h3 (by decide)
  have hsupp : supportedVersion v = true ↔ (v = chars "1.0" ∨ v = chars "1.1") := by
    constructor
    · intro h
      have : v ∈ serverProtocolVersions := by
        simpa [supportedVersion] using h
      simpa [serverProtocolVersions] using this
    · intro h
      rcases h with h | h <;> rw [h] <;> rfl
  have hcode : parseCodeAndText (splitOnChar ' ' (chars "0 EX_OK")) = none := by decide
  refine ⟨?_, ?_, ?_, ?_⟩
  · rw [hstr true]
    by_cases hv : v = clientProtocolVersion
    · simp [hv, hcode]
    · simp [hv]
  · rw [hstr false]
    by_cases hv : supportedVersion v = true
    · simp [hv, hcode, hsupp.mp hv]
    · have : ¬ (v = chars "1.0" ∨ v = chars "1.1") := fun h => hv (hsupp.mpr h)
      simp [hv, this]
  · intro hv
    rw [hstr true]
    simp [hv]
  · intro hv
    rw [hstr false]
    have : ¬ supportedVersion v = true := fun h => hv (hsupp.mp h)
    simp [this]

/-- C6 witness: a non-PING parse rejects the client version token
"1.5" with the unknown-server-protocol-version error. -/
theorem version_check_branches_w :
    parseCodeLineStr false (chars "SPAMD/" ++ (chars "1.5" ++ ' ' :: chars "0 EX_OK")) =
      some (.unknownVersion (chars "1.5")) :=
  (version_check_branches (chars "1.5") (by decide)).2.2.2 (by decide)

/-! ## C7 / C9: header validation and case-insensitive storage -/

/-- C7: `Header.Set` with the `Message-class` key aborts (panics)
exactly when the lower-cased value is outside {"", "spam", "ham"}, and
with the `Set` / `Remove` keys exactly when some comma-separated
element of the lower-cased value is outside {"", "local", "remote"};
for every value inside the vocabulary it stores the header and returns
the updated collection. -/
theorem header_set_enum_validation (h : HeaderL) (v : String) :
    ((∃ h2, headerSet h "Message-class" v = .ok h2) ↔
      (lowerString v = "" ∨ lowerString v = "spam" ∨ lowerString v = "ham")) ∧
    ((∃ h2, headerSet h "Set" v = .ok h2) ↔
      ∀ x ∈ splitOnChar ',' (asciiLower v.data), setElemOk x = true) ∧
    ((∃ h2, headerSet h "Remove" v = .ok h2) ↔
      ∀ x ∈ splitOnChar ',' (asciiLower v.data), setElemOk x = true) ∧
    ((lowerString v = "" ∨ lowerString v = "spam" ∨ lowerString v = "ham") →
      headerSet h "Message-class" v = .ok (assocSet h "Message-class" v)) ∧
    ((∀ x ∈ splitOnChar ',' (asciiLower v.data), setElemOk x = true) →
      headerSet h "Set" v = .ok (assocSet h "Set" v) ∧
      headerSet h "Remove" v = .ok (assocSet h "Remove" v)) := by
  have hn1 : normalizeKey "Message-class" = "Message-class" := by decide
  have hn2 : normalizeKey "Set" = "Set" := by decide
  have hn3 : normalizeKey "Remove" = "Remove" := by decide
  have hfind : ∀ l : List (List Char),
      (l.find? (fun x => ¬ setElemOk x) = none) ↔ ∀ x ∈ l, setElemOk x = true := by
    intro l
    rw [List.find?_eq_none]
    constructor
    · intro hh x hx
      have := hh x hx
      simpa using this
    · intro hh x hx
      simp [hh x hx]
  have hmc : headerSet h "Message-class" v =
      if lowerString v ≠ "" ∧ lowerString v ≠ "spam" ∧ lowerString v ≠ "ham"
      then .error ("unknown value for " ++ "Message-class" ++ " header: " ++ lowerString v)
      else .ok (assocSet h "Message-class" v) := by
    unfold headerSet
    rw [hn1]
    simp
  have hset : headerSet h "Set" v =
      (match (splitOnChar ',' (asciiLower v.data)).find? (fun x => ¬ setElemOk x) with
       | some x => .error ("unknown value for " ++ "Set" ++ " header: " ++ String.mk x)
       | none => .ok (assocSet h "Set" v)) := by
    unfold headerSet
    rw [hn2]
    simp
  have hrem : headerSet h "Remove" v =
      (match (splitOnChar ',' (asciiLower v.data)).find? (fun x => ¬ setElemOk x) with
       | some x => .error ("unknown value for " ++ "Remove" ++ " header: " ++ String.mk x)
       | none => .ok (assocSet h "Remove" v)) := by
    unfold headerSet
    rw [hn3]
    simp
  refine ⟨?_, ?_, ?_, ?_, ?_⟩
  · rw [hmc]
    by_cases hv : lowerString v ≠ "" ∧ lowerString v ≠ "spam" ∧ lowerString v ≠ "ham"
    · rw [if_pos hv]
      simp only [reduceCtorEq, exists_false, false_iff]
      tauto
    · rw [if_neg hv]
      simp only [Except.ok.injEq, exists_eq']
      push_neg at hv
      constructor
      · intro _
        by_cases h1 : lowerString v = ""
        · exact Or.inl h1
        · by_cases h2 : lowerString v = "spam"
          · exact Or.inr (Or.inl h2)
          · exact Or.inr (Or.inr (hv h1 h2))
      · intro _; trivial
  · rw [hset]
    cases hf : (splitOnChar ',' (asciiLower v.data)).find? (fun x => ¬ setElemOk x) with
    | none =>
      simp only [Except.ok.injEq, exists_eq']
      simpa using (hfind _).mp hf
    | some x =>
      simp only [reduceCtorEq, exists_false, false_iff]
      intro hall
      have hx := List.find?_some hf
      have hmem := List.mem_of_find?_eq_some hf
      simp [hall x hmem] at hx
  · rw [hrem]
    cases hf : (splitOnChar ',' (asciiLower v.data)).find? (fun x => ¬ setElemOk x) with
    | none =>
      simp only [Except.ok.injEq, exists_eq']
      simpa using (hfind _).mp hf
    | some x =>
      simp only [reduceCtorEq, exists_false, false_iff]
      intro hall
      have hx := List.find?_some hf
      have hmem := List.mem_of_find?_eq_some hf
      simp [hall x hmem] at hx
  · intro hv
    rw [hmc, if_neg ?_]
    push_neg
    intro h1 h2
    rcases hv with hh | hh | hh
    · exact absurd hh h1
    · exact absurd hh h2
    · exact hh
  · intro hv
    constructor
    · rw [hset, (hfind _).mpr hv]
    · rw [hrem, (hfind _).mpr hv]

/-- C7 witness: storing a vocabulary value succeeds and the panic case
is reachable on a non-vocabulary value. -/
theorem header_set_enum_validation_w :
    headerSet [] "Message-class" "Spam" = .ok (assocSet [] "Message-class" "Spam") ∧
    ¬ ∃ h2, headerSet [] "Message-class" "hello" = .ok h2 := by
  constructor
  · exact (header_set_enum_validation [] "Spam").2.2.2.1 (Or.inr (Or.inl (by decide)))
  · rw [(header_set_enum_validation [] "hello").1]
    decide

/-- C9: after a validated `Set`, looking the header up under any key
with the same normalized form — in particular a key differing only in
letter case — returns exactly the stored value `v`: validation
lower-cases a copy of the value but stores the original. -/
theorem header_set_get_roundtrip (h h2 : HeaderL) (k k2 v : String)
    (hst : headerSet h k v = .ok h2)
    (hkey : asciiLower k2.data = asciiLower k.data ∨ normalizeKey k2 = normalizeKey k) :
    headerGet h2 k2 = some v := by
  have hnk : normalizeKey k2 = normalizeKey k := by
    rcases hkey with hl | he
    · unfold normalizeKey lowerString
      have hlen : k2.data.length = k.data.length := by
        have := congrArg List.length hl
        simpa [asciiLower] using this
      rw [hl, hlen]
    · exact he
  have hh2 : h2 = assocSet h (normalizeKey k) v := by
    unfold headerSet at hst
    split_ifs at hst with h1 h2' h3
    · exact (Except.ok.inj hst).symm
    · rcases hf : (splitOnChar ',' (asciiLower v.data)).find? (fun x => ¬ setElemOk x) with _ | x
      · rw [hf] at hst
        exact (Except.ok.inj hst).symm
      · rw [hf] at hst
        exact absurd hst (by simp)
    · exact (Except.ok.inj hst).symm
  subst hh2
  unfold headerGet assocSet
  rw [hnk, List.find?_cons_of_pos _ (by simp)]
  rfl

/-- C9 witness: `Set` under "user" then `Get` under "USER" returns the
stored value unchanged. -/
theorem header_set_get_roundtrip_w :
    headerGet [("User", "xX")] "USER" = some "xX" :=
  header_set_get_roundtrip [] [("User", "xX")] "user" "USER" "xX"
    (by decide) (Or.inl (by decide))

/-! ## C4: the failure modes of `parseSpamHeader` -/

/-- Evaluation of `parseSpamValue` on a value whose `';'` split has exactly two
parts. -/
theorem parseSpamValue_cons2 (spam s0 s1 : List Char)
    (hsp : splitOnChar ';' spam = [s0, s1]) :
    parseSpamValue spam =
      (if asciiLower (trimSpace s0) = chars "true" ∨ asciiLower (trimSpace s0) = chars "yes" then
        parseScores true s1
      else if asciiLower (trimSpace s0) = chars "false" ∨ asciiLower (trimSpace s0) = chars "no" then
        parseScores false s1
      else .error (.unknownStatus s0)) := by
  unfold parseSpamValue
  rw [hsp]

/-- Evaluation of `parseScores` on a half whose `'/'` split has exactly two parts. -/
theorem parseScores_cons2 (b : Bool) (s1 a c : List Char)
    (hsl : splitOnChar '/' s1 = [a, c]) :
    parseScores b s1 =
      (match parseGoFloat (trimSpace a) with
       | none => .error .noParseScore
       | some score =>
         match parseGoFloat (trimSpace c) with
         | none => .error .noParseBase
         | some base => .ok (b, score, base)) := by
  unfold parseScores
  rw [hsl]

/-- The function `parseScores` can only fail with a `'/'`-split mismatch or a float
parse failure. -/
theorem parseScores_error_shape (b : Bool) (s1 : List Char) :
    parseScores b s1 = .error (.unexpectedData s1) ∨
    parseScores b s1 = .error .noParseScore ∨
    parseScores b s1 = .error .noParseBase ∨
    ∃ r, parseScores b s1 = .ok r := by
  unfold parseScores
  split
  · split
    · right; left; rfl
    · split
      · right; right; left; rfl
      · right; right; right; exact ⟨_, rfl⟩
  · left; rfl

/-- The function `parseSpamValue` never produces the header-presence errors. -/
theorem parseSpamValue_error_shape (spam : List Char) :
    parseSpamValue spam ≠ .error .headerMissing ∧
    parseSpamValue spam ≠ .error .headerEmpty := by
  have hsc : ∀ b s1, parseScores b s1 ≠ .error SpamErr.headerMissing ∧
      parseScores b s1 ≠ .error SpamErr.headerEmpty := by
    intro b s1
    rcases parseScores_error_shape b s1 with h | h | h | ⟨r, h⟩ <;>
      rw [h] <;> exact ⟨by simp, by simp⟩
  unfold parseSpamValue
  split
  · split
    · exact hsc _ _
    · split
      · exact hsc _ _
      · exact ⟨by simp, by simp⟩
  · exact ⟨by simp, by simp⟩

/-- C4 counterexample: the claim says a present-but-blank `Spam` header
fails with "header empty"; on the code it fails with "header missing"
(the first guard `!ok || len(spam) == 0` already captures the blank
value), and the two failure modes are distinct. -/
theorem spam_blank_header_counterexample :
    parseSpamHeader [("Spam", "")] = .error .headerMissing ∧
    SpamErr.headerMissing ≠ SpamErr.headerEmpty := by decide

/-- C4 (amended): `parseSpamHeader` fails with "header missing" exactly
when the `Spam` header is absent or present but blank; the "header
empty" mode is unreachable; "unexpected data" arises when the `';'`
split does not yield exactly two parts, "unknown spam status" when the
boolean token is not one of the four accepted case-insensitive
spellings, and "could not parse" when a numeric half fails to parse;
each of the four reachable modes is exhibited on a concrete input. -/
theorem parse_spam_header_error_modes (h : HeaderL) :
    (parseSpamHeader h = .error .headerMissing ↔
      headerGet h "Spam" = none ∨ headerGet h "Spam" = some "") ∧
    (parseSpamHeader h ≠ .error .headerEmpty) ∧
    (∀ spam : String, headerGet h "Spam" = some spam → spam ≠ "" →
      (splitOnChar ';' spam.data).length ≠ 2 →
      parseSpamHeader h = .error (.unexpectedData (spam.data.take 1))) ∧
    (∀ (spam : String) (s0 s1 : List Char), headerGet h "Spam" = some spam → spam ≠ "" →
      splitOnChar ';' spam.data = [s0, s1] →
      asciiLower (trimSpace s0) ∉ [chars "true", chars "yes", chars "false", chars "no"] →
      parseSpamHeader h = .error (.unknownStatus s0)) ∧
    (∀ (spam : String) (s0 s1 a b : List Char), headerGet h "Spam" = some spam → spam ≠ "" →
      splitOnChar ';' spam.data = [s0, s1] →
      asciiLower (trimSpace s0) ∈ [chars "true", chars "yes", chars "false", chars "no"] →
      splitOnChar '/' s1 = [a, b] → parseGoFloat (trimSpace a) = none →
      parseSpamHeader h = .error .noParseScore) ∧
    (∀ (spam : String) (s0 s1 a b : List Char) (sc : GoFloat),
      headerGet h "Spam" = some spam → spam ≠ "" →
      splitOnChar ';' spam.data = [s0, s1] →
      asciiLower (trimSpace s0) ∈ [chars "true", chars "yes", chars "false", chars "no"] →
      splitOnChar '/' s1 = [a, b] → parseGoFloat (trimSpace a) = some sc →
      parseGoFloat (trimSpace b) = none →
      parseSpamHeader h = .error .noParseBase) ∧
    (parseSpamHeader [("Spam", "clearly incorrect")] = .error (.unexpectedData (chars "c")) ∧
     parseSpamHeader [("Spam", "bacon ; 0 / 0")] = .error (.unknownStatus (chars "bacon ")) ∧
     parseSpamHeader [("Spam", "no ; asd / 0")] = .error .noParseScore ∧
     parseSpamHeader [("Spam", "no ; 0 / asd")] = .error .noParseBase) := by
  have hval : ∀ spam : String, headerGet h "Spam" = some spam → spam ≠ "" →
      parseSpamHeader h = parseSpamValue spam.data := by
    intro spam hs hne
    have hd : ¬ spam.data = [] := by
      intro hdd
      exact hne (by cases spam; simp at hdd; simp [hdd])
    unfold parseSpamHeader
    rw [hs]
    simp [hd]
  refine ⟨?_, ?_, ?_, ?_, ?_, ?_, by decide⟩
  · constructor
    · intro he
      by_contra hcon
      push_neg at hcon
      obtain ⟨hn, hb⟩ := hcon
      cases hg : headerGet h "Spam" with
      | none => exact hn hg
      | some spam =>
        have hne : spam ≠ "" := by
          intro hh
          exact hb (by rw [hg, hh])
        rw [hval spam hg hne] at he
        exact (parseSpamValue_error_shape spam.data).1 he
    · intro hor
      unfold parseSpamHeader
      rcases hor with hg | hg <;> rw [hg]
      simp
  · intro he
    cases hg : headerGet h "Spam" with
    | none =>
      unfold parseSpamHeader at he
      rw [hg] at he
      exact absurd he (by simp)
    | some spam =>
      by_cases hne : spam = ""
      · unfold parseSpamHeader at he
        rw [hg, hne] at he
        exact absurd he (by simp)
      · rw [hval spam hg hne] at he
        exact (parseSpamValue_error_shape spam.data).2 he
  · intro spam hs hne hl
    rw [hval spam hs hne]
    unfold parseSpamValue
    cases hsp : splitOnChar ';' spam.data with
    | nil => exact absurd hsp (splitOnChar_ne_nil _ _)
    | cons s0 t =>
      cases t with
      | nil => rfl
      | cons s1 t2 =>
        cases t2 with
        | nil =>
          exact absurd (show (splitOnChar ';' spam.data).length = 2 by rw [hsp]; rfl) hl
        | cons s2 t3 => rfl
  · intro spam s0 s1 hs hne hsp htok
    rw [hval spam hs hne, parseSpamValue_cons2 _ _ _ hsp]
    simp only [List.mem_cons, List.not_mem_nil, or_false] at htok
    push_neg at htok
    obtain ⟨h1, h2, h3, h4⟩ := htok
    rw [if_neg (by tauto), if_neg (by tauto)]
  · intro spam s0 s1 a b hs hne hsp htok hsl hfa
    rw [hval spam hs hne, parseSpamValue_cons2 _ _ _ hsp]
    have hx : ∀ bb : Bool, parseScores bb s1 = .error .noParseScore := by
      intro bb
      rw [parseScores_cons2 bb s1 a b hsl, hfa]
    simp only [List.mem_cons, List.not_mem_nil, or_false] at htok
    rcases htok with h1 | h1 | h1 | h1
    · rw [h1, if_pos (Or.inl rfl), hx]
    · rw [h1, if_pos (Or.inr rfl), hx]
    · rw [h1, if_neg (by decide), if_pos (Or.inl rfl), hx]
    · rw [h1, if_neg (by decide), if_pos (Or.inr rfl), hx]
  · intro spam s0 s1 a b sc hs hne hsp htok hsl hfa hfb
    rw [hval spam hs hne, parseSpamValue_cons2 _ _ _ hsp]
    have hx : ∀ bb : Bool, parseScores bb s1 = .error .noParseBase := by
      intro bb
      rw [parseScores_cons2 bb s1 a b hsl, hfa, hfb]
    simp only [List.mem_cons, List.not_mem_nil, or_false] at htok
    rcases htok with h1 | h1 | h1 | h1
    · rw [h1, if_pos (Or.inl rfl), hx]
    · rw [h1, if_pos (Or.inr rfl), hx]
    · rw [h1, if_neg (by decide), if_pos (Or.inl rfl), hx]
    · rw [h1, if_neg (by decide), if_pos (Or.inr rfl), hx]

/-- C4 witness: the unknown-status conditional applied to the concrete
header value `"bacon ; 0 / 0"`. -/
theorem parse_spam_header_error_modes_w :
    parseSpamHeader [("Spam", "bacon ; 0 / 0")] = .error (.unknownStatus (chars "bacon ")) :=
  (parse_spam_header_error_modes [("Spam", "bacon ; 0 / 0")]).2.2.2.1
    "bacon ; 0 / 0" (chars "bacon ") (chars " 0 / 0")
    (by decide) (by decide) (by decide) (by decide)

/-! ## C2: message framing -/

theorem readSliceNL_append : ∀ l : List Nat,
    (readSliceNL l).1 ++ (readSliceNL l).2.1 = l := by
  intro l
  induction l with
  | nil => rfl
  | cons c t ih =>
    unfold readSliceNL
    by_cases hc : c = 10
    · simp [hc]
    · rcases hr : readSliceNL t with ⟨line, rest, ok⟩
      rw [hr] at ih
      simp only [if_neg hc, hr]
      simpa using ih

theorem readSliceNL_ne_nil (l : List Nat) (hl : l ≠ []) : (readSliceNL l).1 ≠ [] := by
  cases l with
  | nil => exact absurd rfl hl
  | cons c t =>
    unfold readSliceNL
    by_cases hc : c = 10
    · simp [hc]
    · rcases hr : readSliceNL t with ⟨line, rest, ok⟩
      simp [if_neg hc, hr]

/-- The loop invariant of the header scan: the input bytes are fully
accounted for in the result, with the blank separator line consumed
exactly when `blankConsumed` is reported. -/
def scanOk (hdrs input : List Nat) (r : ScanResult) : Prop :=
  if r.blankConsumed then
    hdrs ++ input = r.headers ++ crlfB ++ r.remaining ∧ r.rest = []
  else hdrs ++ input = r.headers ++ r.rest ++ r.remaining

theorem scanHeadersF_inv (fuel : Nat) : ∀ hdrs input : List Nat, input.length < fuel →
    scanOk hdrs input (scanHeadersF fuel hdrs input) := by
  induction fuel with
  | zero =>
    intro hdrs input h
    exact absurd h (by omega)
  | succ fuel ih =>
    intro hdrs input hlt
    cases input with
    | nil => simp [scanHeadersF, scanOk]
    | cons c1 t1 =>
      cases t1 with
      | nil => simp [scanHeadersF, scanOk]
      | cons c2 t =>
        by_cases hblank : c1 = 13 ∧ c2 = 10
        · obtain ⟨hb1, hb2⟩ := hblank
          subst hb1; subst hb2
          simp [scanHeadersF, scanOk, crlfB]
        · rcases hr : readSliceNL (c1 :: c2 :: t) with ⟨line, rest, ok⟩
          have happ : line ++ rest = c1 :: c2 :: t := by
            have := readSliceNL_append (c1 :: c2 :: t)
            rw [hr] at this
            simpa using this
          have hlinene : line ≠ [] := by
            have := readSliceNL_ne_nil (c1 :: c2 :: t) (by simp)
            rw [hr] at this
            simpa using this
          have hrest : rest.length < fuel := by
            have h1 : line.length + rest.length = t.length + 2 := by
              have := congrArg List.length happ
              simpa using this
            have h2 : 1 ≤ line.length := by
              cases line with
              | nil => exact absurd rfl hlinene
              | cons a b => simp
            simp at hlt
            omega
          have hrec : ∀ hdrs2 : List Nat,
              hdrs2 ++ (c1 :: c2 :: t) = (hdrs2 ++ line) ++ rest := by
            intro hdrs2
            rw [List.append_assoc, happ]
          by_cases hsp : c1 = 32 ∨ c1 = 9
          · by_cases hh : hdrs = []
            · simp [scanHeadersF, if_neg hblank, if_pos hsp, hh, scanOk]
            · simp only [scanHeadersF, if_neg hblank, if_pos hsp, if_neg hh, hr]
              by_cases hok : ok = true
              · by_cases hascii : isAsciiBytes line = true
                · simp only [hok, hascii]
                  have := ih (hdrs ++ line) rest hrest
                  unfold scanOk at this ⊢
                  rw [hrec hdrs]
                  exact this
                · simp only [hok, hascii]
                  simp [scanOk, hrec hdrs, List.append_assoc]
              · have hok2 : ok = false := by
                  cases ok
                  · rfl
                  · exact absurd rfl hok
                subst hok2
                simp [scanOk, hrec hdrs, List.append_assoc]
          · simp only [scanHeadersF, if_neg hblank, if_neg hsp, hr]
            by_cases hok : ok = true
            · by_cases hcolon : line.contains 58 = true
              · by_cases hascii : isAsciiBytes line = true
                · simp only [hok, hcolon, hascii]
                  have := ih (hdrs ++ line) rest hrest
                  unfold scanOk at this ⊢
                  rw [hrec hdrs]
                  exact this
                · simp only [hok, hcolon, hascii]
                  simp [scanOk, hrec hdrs, List.append_assoc]
              · simp only [hok, hcolon]
                simp [scanOk, hrec hdrs, List.append_assoc]
            · have hok2 : ok = false := by
                cases ok
                · rfl
                · exact absurd rfl hok
              subst hok2
              simp [scanOk, hrec hdrs, List.append_assoc]

theorem scanHeaders_inv (msg : List Nat) : scanOk [] msg (scanHeaders msg) :=
  scanHeadersF_inv (msg.length + 1) [] msg (by omega)

theorem msgTerminated_append_crlf (x : List Nat) : msgTerminated (x ++ crlfB) = true := by
  unfold msgTerminated crlfB
  have h2 : (x ++ ([13, 10] : List Nat)).length = x.length + 2 := by simp
  rw [h2]
  have h3 : (x ++ ([13, 10] : List Nat)).drop (x.length + 2 - 2) = [13, 10] := by
    have : x.length + 2 - 2 = x.length := by omega
    rw [this]
    exact List.drop_left x [13, 10]
  simp [h3]

/-- A byte stream ends in exactly one CRLF terminator: it ends with
CRLF and the part before that final CRLF does not. -/
def endsInExactlyOneCRLF (l : List Nat) : Bool :=
  msgTerminated l && ! msgTerminated (l.take (l.length - 2))

/-- C2 counterexample: the message `"A: B\n"` (a header line with no
CRLF termination) is framed as `"A: B\n\r\n\r\n"` — the inserted
header/body separator line is immediately followed by the appended
terminator, so the framed body ends in TWO CRLF terminators, not
exactly one. -/
theorem framing_two_terminators :
    msgTerminated [65, 58, 32, 66, 10] = false ∧
    (rearrangeMessage [65, 58, 32, 66, 10] 5).1 =
      [65, 58, 32, 66, 10, 13, 10, 13, 10] ∧
    (rearrangeMessage [65, 58, 32, 66, 10] 5).2 = 9 ∧
    endsInExactlyOneCRLF (rearrangeMessage [65, 58, 32, 66, 10] 5).1 = false := by
  decide

/-- C2 (amended): for every message byte stream, the declared size
returned by `rearrangeMessageReader` (starting from the stream's true
length) equals the number of body bytes actually produced; when the
source does not end in a CRLF terminator exactly one terminator is
appended at the very end (so the framed body ends in a terminator,
though the inserted header/body separator can make it end in two), and
a source already ending in a terminator gets none appended. -/
theorem rearrange_framing (msg : List Nat) :
    ((rearrangeMessage msg (msg.length : Int)).2 =
      ((rearrangeMessage msg (msg.length : Int)).1.length : Int)) ∧
    (msgTerminated msg = false →
      (rearrangeMessage msg (msg.length : Int)).1 =
        ((scanHeaders msg).headers ++ crlfB ++ (scanHeaders msg).rest ++
          (scanHeaders msg).remaining) ++ crlfB ∧
      msgTerminated (rearrangeMessage msg (msg.length : Int)).1 = true) ∧
    (msgTerminated msg = true →
      (rearrangeMessage msg (msg.length : Int)).1 =
        (scanHeaders msg).headers ++ crlfB ++ (scanHeaders msg).rest ++
          (scanHeaders msg).remaining) := by
  have hinv := scanHeaders_inv msg
  unfold scanOk at hinv
  refine ⟨?_, ?_, ?_⟩
  · unfold rearrangeMessage
    by_cases hb : (scanHeaders msg).blankConsumed = true
    · rw [if_pos hb] at hinv
      obtain ⟨heq, hrest⟩ := hinv
      have hlen : msg.length = (scanHeaders msg).headers.length + 2 +
          (scanHeaders msg).remaining.length := by
        have := congrArg List.length heq
        simp [crlfB] at this
        omega
      by_cases ht : msgTerminated msg = true
      · simp only [hb, ht, if_pos, if_true]
        simp [hrest, crlfB, hlen]
        omega
      · have ht2 : msgTerminated msg = false := by
          cases hx : msgTerminated msg
          · rfl
          · exact absurd hx ht
        simp only [hb, ht2, if_true, if_false, Bool.false_eq_true]
        simp [hrest, crlfB, hlen]
        omega
    · have hb2 : (scanHeaders msg).blankConsumed = false := by
        cases hx : (scanHeaders msg).blankConsumed
        · rfl
        · exact absurd hx hb
      rw [if_neg (by simp [hb2])] at hinv
      have hlen : msg.length = (scanHeaders msg).headers.length +
          (scanHeaders msg).rest.length + (scanHeaders msg).remaining.length := by
        have := congrArg List.length hinv
        simp at this
        omega
      by_cases ht : msgTerminated msg = true
      · simp only [hb2, ht, Bool.false_eq_true, if_false, if_true]
        simp [crlfB, hlen]
        omega
      · have ht2 : msgTerminated msg = false := by
          cases hx : msgTerminated msg
          · rfl
          · exact absurd hx ht
        simp only [hb2, ht2, Bool.false_eq_true, if_false]
        simp [crlfB, hlen]
        omega
  · intro ht
    unfold rearrangeMessage
    simp only [ht, Bool.false_eq_true, if_false]
    constructor
    · simp [List.append_assoc]
    · have : (scanHeaders msg).headers ++ crlfB ++ (scanHeaders msg).rest ++
          (scanHeaders msg).remaining ++ crlfB =
          ((scanHeaders msg).headers ++ crlfB ++ (scanHeaders msg).rest ++
            (scanHeaders msg).remaining) ++ crlfB := by
        simp [List.append_assoc]
      rw [this]
      exact msgTerminated_append_crlf _
  · intro ht
    unfold rearrangeMessage
    simp [ht]

/-- C2 witness: the amended theorem applied to the concrete message
`"A: B\n"`: the declared size matches the produced byte count and the
framed body is terminated. -/
theorem rearrange_framing_w :
    (rearrangeMessage [65, 58, 32, 66, 10] (([65, 58, 32, 66, 10] : List Nat).length : Int)).2 =
      (((rearrangeMessage [65, 58, 32, 66, 10]
        (([65, 58, 32, 66, 10] : List Nat).length : Int)).1.length : Int)) ∧
    msgTerminated (rearrangeMessage [65, 58, 32, 66, 10]
      (([65, 58, 32, 66, 10] : List Nat).length : Int)).1 = true :=
  ⟨(rearrange_framing [65, 58, 32, 66, 10]).1,
   ((rearrange_framing [65, 58, 32, 66, 10]).2.1 (by decide)).2⟩

/-! ## C10: robustness of the report parser -/

/-- C10: `parseReport` consumes lines until end of stream and always
produces a `GoReport` (the model is a total function of the finite
line stream: on such a stream `ReadLine`'s only failure is the `io.EOF`
loop exit, so the Go error return is never taken); a table-mode line
matching the row pattern whose points field fails to parse as a float
leaves the state unchanged (silently skipped), and a table-mode
continuation line arriving before any table row is silently discarded
rather than causing an error or a panic. -/
theorem report_parser_robustness :
    (∀ lines : List (List Char), parseReport lines =
      ⟨trimSpace ((lines.foldl reportStep ⟨[], [], false⟩).intro),
       (lines.foldl reportStep ⟨[], [], false⟩).table⟩) ∧
    (∀ (st : ReportState) (line p r d : List Char), st.tableMode = true →
      reTableFind line = some (p, r, d) → parseGoFloat p = none →
      reportStep st line = st) ∧
    (∀ (st : ReportState) (line : List Char), st.tableMode = true → st.table = [] →
      reTableFind line = none → reportStep st line = st) := by
  refine ⟨fun lines => rfl, ?_, ?_⟩
  · intro st line p r d htm hfind hfloat
    unfold reportStep
    rw [if_neg (by simp [htm])]
    by_cases hdash : hasPrefixL line (chars "---- -") = true
    · rw [if_pos (by simp [htm, hdash])]
    · rw [if_neg (by simp [hdash]), if_neg (by simp [htm])]
      simp [hfind, hfloat]
  · intro st line htm htab hfind
    unfold reportStep
    rw [if_neg (by simp [htm])]
    by_cases hdash : hasPrefixL line (chars "---- -") = true
    · rw [if_pos (by simp [htm, hdash])]
    · rw [if_neg (by simp [hdash]), if_neg (by simp [htm])]
      simp [hfind, htab]

/-- C10 witness: a table-mode row line with unparseable points
`"1.2.3"` is skipped, and a continuation line before any row is
discarded, both leaving the state unchanged. -/
theorem report_parser_robustness_w :
    reportStep ⟨[], [], true⟩ (chars "1.2.3 RULE desc") = ⟨[], [], true⟩ ∧
    reportStep ⟨[], [], true⟩ (chars "continuation before any row") = ⟨[], [], true⟩ :=
  ⟨report_parser_robustness.2.1 ⟨[], [], true⟩ (chars "1.2.3 RULE desc")
      (chars "1.2.3") (chars "RULE") (chars "desc") rfl (by decide) (by decide),
   report_parser_robustness.2.2 ⟨[], [], true⟩ (chars "continuation before any row")
      rfl rfl (by decide)⟩

/-! ## C1: verdict header round-trip -/

/-- A decimal numeral as a score is formatted into the verdict header:
an optional minus sign, a non-empty integer-digit part, an optional
fractional digit part. -/
structure Numeral where
  neg : Bool
  ip : List Nat
  fp : List Nat
deriving DecidableEq, Repr

/-- Well-formedness: digits are digits and the integer part is
non-empty. -/
def Numeral.wf (n : Numeral) : Prop :=
  n.ip ≠ [] ∧ (∀ d ∈ n.ip, d < 10) ∧ (∀ d ∈ n.fp, d < 10)

instance (n : Numeral) : Decidable n.wf := by
  unfold Numeral.wf
  infer_instance

/-- The character of a decimal digit. -/
def digitChar (d : Nat) : Char := Char.ofNat (48 + d)

/-- The digit body of a rendered numeral (without the sign). -/
def scoreBody (n : Numeral) : List Char :=
  n.ip.map digitChar ++ (if n.fp = [] then [] else '.' :: n.fp.map digitChar)

/-- The rendered numeral. -/
def Numeral.render (n : Numeral) : List Char :=
  (if n.neg then ['-'] else []) ++ scoreBody n

/-- The value of a digit list (most significant first). -/
def natOfDigits (ds : List Nat) : Nat := ds.foldl (fun a d => 10 * a + d) 0

/-- The exact rational value of a numeral. -/
def Numeral.val (n : Numeral) : ℚ :=
  if n.neg then
    -((natOfDigits n.ip : ℚ) + (natOfDigits n.fp : ℚ) / ((10 : ℚ) ^ n.fp.length))
  else (natOfDigits n.ip : ℚ) + (natOfDigits n.fp : ℚ) / ((10 : ℚ) ^ n.fp.length)

theorem digitChar_facts (d : Nat) (h : d < 10) :
    isDigitChar (digitChar d) = true ∧ digitVal (digitChar d) = d ∧
    lowerChar (digitChar d) = digitChar d ∧ isGoSpace (digitChar d) = false ∧
    digitChar d ≠ ';' ∧ digitChar d ≠ '/' ∧ digitChar d ≠ '+' ∧ digitChar d ≠ '-' := by
  interval_cases d <;> decide

theorem foldl_digits : ∀ ds : List Nat, (∀ d ∈ ds, d < 10) → ∀ a : Nat,
    (ds.map digitChar).foldl (fun acc c => 10 * acc + digitVal c) a =
      ds.foldl (fun x d => 10 * x + d) a := by
  intro ds
  induction ds with
  | nil => intro _ a; rfl
  | cons d t ih =>
    intro h a
    simp only [List.map_cons, List.foldl_cons,
      (digitChar_facts d (h d (by simp))).2.1]
    exact ih (fun x hx => h x (List.mem_cons_of_mem _ hx)) _

theorem natFromChars_map (ds : List Nat) (h : ∀ d ∈ ds, d < 10) :
    natFromChars (ds.map digitChar) = natOfDigits ds :=
  foldl_digits ds h 0

theorem digits_scan : ∀ ds : List Nat, (∀ d ∈ ds, d < 10) → ∀ rest : List Char,
    (∀ c, rest.head? = some c → isDigitChar c = false) →
    (ds.map digitChar ++ rest).takeWhile isDigitChar = ds.map digitChar ∧
    (ds.map digitChar ++ rest).dropWhile isDigitChar = rest := by
  intro ds
  induction ds with
  | nil =>
    intro _ rest hrest
    cases rest with
    | nil => exact ⟨rfl, rfl⟩
    | cons c t =>
      simp only [List.map_nil, List.nil_append]
      constructor
      · simp [List.takeWhile_cons, hrest c rfl]
      · simp [List.dropWhile_cons, hrest c rfl]
  | cons d t ih =>
    intro h rest hrest
    have hd := (digitChar_facts d (h d (by simp))).1
    have iht := ih (fun x hx => h x (List.mem_cons_of_mem _ hx)) rest hrest
    simp only [List.map_cons, List.cons_append, List.takeWhile_cons,
      List.dropWhile_cons, hd]
    exact ⟨by simp [iht.1], by simp [iht.2]⟩

theorem decimalMantissa_render (ip fp : List Nat) (hip : ip ≠ [])
    (h1 : ∀ d ∈ ip, d < 10) (h2 : ∀ d ∈ fp, d < 10) :
    decimalMantissa (ip.map digitChar ++
        (if fp = [] then [] else '.' :: fp.map digitChar)) =
      some ((natOfDigits ip : ℚ) + (natOfDigits fp : ℚ) / ((10 : ℚ) ^ fp.length), []) := by
  have hipne : ip.map digitChar ≠ [] := by simpa using hip
  by_cases hfp : fp = []
  · subst hfp
    have hbody : (ip.map digitChar ++
        if ([] : List Nat) = [] then [] else '.' :: List.map digitChar []) =
        ip.map digitChar := by simp
    rw [hbody]
    unfold decimalMantissa
    have hs := digits_scan ip h1 [] (by intro c hc; simp at hc)
    rw [List.append_nil] at hs
    rw [hs.1, hs.2]
    simp [hipne, natFromChars_map ip h1, natOfDigits]
  · rw [if_neg hfp]
    unfold decimalMantissa
    have hs := digits_scan ip h1 ('.' :: fp.map digitChar)
      (by intro c hc; simp at hc; subst hc; decide)
    rw [hs.1, hs.2]
    have hs2 := digits_scan fp h2 [] (by intro c hc; simp at hc)
    rw [List.append_nil] at hs2
    simp only [hs2.1, hs2.2]
    rw [if_neg (by simp [hipne])]
    rw [natFromChars_map ip h1, natFromChars_map fp h2]
    simp

theorem lowerChar_preimage (c : Char) :
    c = lowerChar c ∨ ('A' ≤ c ∧ c ≤ 'Z') := by
  unfold lowerChar
  by_cases hc : 'A' ≤ c ∧ c ≤ 'Z'
  · exact Or.inr hc
  · rw [if_neg hc]
    exact Or.inl rfl

/-- Characters at or above `'A'` are not whitespace and are none of the
separator characters. -/
theorem ge_A_nonspecial (c : Char) (h1 : 'A' ≤ c) :
    isGoSpace c = false ∧ c ≠ ';' ∧ c ≠ '/' := by
  have hne : ∀ x : Char, ¬ ('A' ≤ x) → c ≠ x := fun x hx he => hx (he ▸ h1)
  refine ⟨?_, hne ';' (by decide), hne '/' (by decide)⟩
  unfold isGoSpace
  simp [hne ' ' (by decide), hne '\t' (by decide), hne '\n' (by decide),
    hne (Char.ofNat 11) (by decide), hne (Char.ofNat 12) (by decide),
    hne '\r' (by decide)]

/-- A character whose lower-casing is a lowercase letter is not
whitespace and is none of the separator characters. -/
theorem token_char_nonspecial (c : Char) (hlow : 'a' ≤ lowerChar c) :
    isGoSpace c = false ∧ c ≠ ';' ∧ c ≠ '/' := by
  rcases lowerChar_preimage c with he | hup
  · refine ge_A_nonspecial c ?_
    rw [he]
    exact le_trans (by decide) hlow
  · exact ge_A_nonspecial c hup.1

theorem scoreBody_chars (n : Numeral) (h1 : ∀ d ∈ n.ip, d < 10)
    (h2 : ∀ d ∈ n.fp, d < 10) :
    ∀ c ∈ scoreBody n, c = '.' ∨ ∃ d, d < 10 ∧ c = digitChar d := by
  intro c hc
  unfold scoreBody at hc
  rw [List.mem_append] at hc
  rcases hc with hc | hc
  · obtain ⟨d, hd, hcd⟩ := List.mem_map.mp hc
    exact Or.inr ⟨d, h1 d hd, hcd.symm⟩
  · by_cases hfp : n.fp = []
    · rw [hfp] at hc
      simp at hc
    · rw [if_neg hfp] at hc
      rcases List.mem_cons.mp hc with hc | hc
      · exact Or.inl hc
      · obtain ⟨d, hd, hcd⟩ := List.mem_map.mp hc
        exact Or.inr ⟨d, h2 d hd, hcd.symm⟩

theorem scoreBody_char_facts (n : Numeral) (h1 : ∀ d ∈ n.ip, d < 10)
    (h2 : ∀ d ∈ n.fp, d < 10) :
    ∀ c ∈ scoreBody n, lowerChar c = c ∧ c ≠ 'n' ∧ c ≠ 'i' ∧
      isGoSpace c = false ∧ c ≠ ';' ∧ c ≠ '/' := by
  intro c hc
  rcases scoreBody_chars n h1 h2 c hc with h | ⟨d, hd, h⟩
  · subst h
    decide
  · subst h
    interval_cases d <;> decide

theorem render_char_facts (n : Numeral) (h1 : ∀ d ∈ n.ip, d < 10)
    (h2 : ∀ d ∈ n.fp, d < 10) :
    ∀ c ∈ n.render, lowerChar c = c ∧ c ≠ 'n' ∧ c ≠ 'i' ∧
      isGoSpace c = false ∧ c ≠ ';' ∧ c ≠ '/' := by
  intro c hc
  unfold Numeral.render at hc
  rw [List.mem_append] at hc
  rcases hc with hc | hc
  · by_cases hn : n.neg
    · rw [if_pos hn] at hc
      simp at hc
      subst hc
      decide
    · rw [if_neg hn] at hc
      simp at hc
  · exact scoreBody_char_facts n h1 h2 c hc

/-- A string of non-letter-`n`/`i` characters never lower-cases to one
of the special spellings containing `n` or `i`. -/
theorem asciiLower_ne_of_chars (l target : List Char)
    (hl : ∀ c ∈ l, lowerChar c = c ∧ c ≠ 'n' ∧ c ≠ 'i')
    (ht : ∃ c0 ∈ target, c0 = 'n' ∨ c0 = 'i') :
    asciiLower l ≠ target := by
  intro he
  obtain ⟨c0, hc0, hor⟩ := ht
  rw [← he] at hc0
  obtain ⟨c, hc, hcc⟩ := List.mem_map.mp hc0
  obtain ⟨hl1, hl2, hl3⟩ := hl c hc
  rw [hl1] at hcc
  rcases hor with h | h
  · exact hl2 (hcc.trans h)
  · exact hl3 (hcc.trans h)

theorem stripSign_digit (d : Nat) (hd : d < 10) (t : List Char) :
    stripSign (digitChar d :: t) = (false, digitChar d :: t) := by
  interval_cases d <;> rfl

theorem scoreBody_ne_nil (n : Numeral) (hip : n.ip ≠ []) : scoreBody n ≠ [] := by
  unfold scoreBody
  intro he
  rw [List.append_eq_nil] at he
  exact hip (by simpa using he.1)

theorem render_ne_nil (n : Numeral) (hip : n.ip ≠ []) : n.render ≠ [] := by
  unfold Numeral.render
  intro he
  rw [List.append_eq_nil] at he
  exact scoreBody_ne_nil n hip he.2

theorem stripSign_render (n : Numeral) (hip : n.ip ≠ [])
    (h1 : ∀ d ∈ n.ip, d < 10) :
    stripSign n.render = (n.neg, scoreBody n) := by
  unfold Numeral.render
  by_cases hn : n.neg
  · rw [if_pos hn, hn]
    rfl
  · rw [if_neg hn, List.nil_append,
      show n.neg = false by revert hn; cases n.neg <;> simp]
    cases hip2 : n.ip with
    | nil => exact absurd hip2 hip
    | cons d dt =>
      have hd : d < 10 := h1 d (by rw [hip2]; simp)
      unfold scoreBody
      rw [hip2]
      simp only [List.map_cons, List.cons_append]
      exact stripSign_digit d hd _

theorem decimalMantissa_scoreBody (n : Numeral) (hip : n.ip ≠ [])
    (h1 : ∀ d ∈ n.ip, d < 10) (h2 : ∀ d ∈ n.fp, d < 10) :
    decimalMantissa (scoreBody n) =
      some ((natOfDigits n.ip : ℚ) +
        (natOfDigits n.fp : ℚ) / ((10 : ℚ) ^ n.fp.length), []) := by
  unfold scoreBody
  exact decimalMantissa_render n.ip n.fp hip h1 h2

/-- Rendering a well-formed numeral and parsing it with
`strconv.ParseFloat` recovers exactly its value. -/
theorem parseGoFloat_render (n : Numeral) (h : n.wf) :
    parseGoFloat n.render = some (.finite n.val) := by
  obtain ⟨hip, h1, h2⟩ := h
  have hrf := render_char_facts n h1 h2
  have hbf := scoreBody_char_facts n h1 h2
  have hne0 : n.render ≠ [] := render_ne_nil n hip
  have hnan : asciiLower n.render ≠ chars "nan" :=
    asciiLower_ne_of_chars _ _
      (fun c hc => ⟨(hrf c hc).1, (hrf c hc).2.1, (hrf c hc).2.2.1⟩)
      ⟨'n', by decide, Or.inl rfl⟩
  have hinf1 : asciiLower (scoreBody n) ≠ chars "inf" :=
    asciiLower_ne_of_chars _ _
      (fun c hc => ⟨(hbf c hc).1, (hbf c hc).2.1, (hbf c hc).2.2.1⟩)
      ⟨'i', by decide, Or.inr rfl⟩
  have hinf2 : asciiLower (scoreBody n) ≠ chars "infinity" :=
    asciiLower_ne_of_chars _ _
      (fun c hc => ⟨(hbf c hc).1, (hbf c hc).2.1, (hbf c hc).2.2.1⟩)
      ⟨'i', by decide, Or.inr rfl⟩
  have hstrip := stripSign_render n hip h1
  have hmant := decimalMantissa_scoreBody n hip h1 h2
  unfold parseGoFloat
  rw [if_neg hne0, if_neg hnan, hstrip]
  simp only
  rw [if_neg (by push_neg; exact ⟨hinf1, hinf2⟩), hmant]
  simp [parseExpSuffix, applyExp, Numeral.val]

/-- Evaluation of `parseSpamHeader` on a single non-blank `Spam` binding reduces to
the value parse. -/
theorem parseSpamHeader_single (v : String) (hv : v.data ≠ []) :
    parseSpamHeader [("Spam", v)] = parseSpamValue v.data := by
  have hget : headerGet [("Spam", v)] "Spam" = some v := by
    unfold headerGet
    rw [List.find?_cons_of_pos _ (by rfl)]
    rfl
  unfold parseSpamHeader
  rw [hget]
  simp [hv]

/-- C1: for every verdict triple — a case-insensitive boolean token
`b`, and two decimal numerals — formatting the verdict header value as
`<b> ; <s> / <t>` with the semicolon and slash each surrounded by
arbitrary (possibly empty) whitespace and parsing it back under the
`Spam` key returns, with no error, the verdict bit (true exactly when
`b` spells "yes" or "true") and the exact values of the two numerals. -/
theorem verdict_roundtrip (b w1 w2 w3 w4 : List Char) (n1 n2 : Numeral)
    (hb : asciiLower b ∈ [chars "yes", chars "no", chars "true", chars "false"])
    (hw1 : ∀ c ∈ w1, isGoSpace c = true) (hw2 : ∀ c ∈ w2, isGoSpace c = true)
    (hw3 : ∀ c ∈ w3, isGoSpace c = true) (hw4 : ∀ c ∈ w4, isGoSpace c = true)
    (h1 : n1.wf) (h2 : n2.wf) :
    parseSpamHeader [("Spam", String.mk
        (b ++ w1 ++ ';' :: (w2 ++ n1.render ++ w3 ++ '/' :: (w4 ++ n2.render))))] =
      .ok (((asciiLower b == chars "yes") || (asciiLower b == chars "true")),
           .finite n1.val, .finite n2.val) := by
  obtain ⟨hip1, h11, h12⟩ := h1
  obtain ⟨hip2, h21, h22⟩ := h2
  have hb4 : asciiLower b = chars "yes" ∨ asciiLower b = chars "no" ∨
      asciiLower b = chars "true" ∨ asciiLower b = chars "false" := by
    simpa using hb
  have hbne : b ≠ [] := by
    intro he
    rw [he] at hb4
    rcases hb4 with h | h | h | h <;> simp [asciiLower, chars] at h
  have hbchars : ∀ c ∈ b, isGoSpace c = false ∧ c ≠ ';' ∧ c ≠ '/' := by
    intro c hc
    have hmem : lowerChar c ∈ asciiLower b := List.mem_map_of_mem _ hc
    have hlow : 'a' ≤ lowerChar c := by
      rcases hb4 with h | h | h | h <;> rw [h] at hmem
      · exact (show ∀ x ∈ chars "yes", 'a' ≤ x by decide) _ hmem
      · exact (show ∀ x ∈ chars "no", 'a' ≤ x by decide) _ hmem
      · exact (show ∀ x ∈ chars "true", 'a' ≤ x by decide) _ hmem
      · exact (show ∀ x ∈ chars "false", 'a' ≤ x by decide) _ hmem
    exact token_char_nonspecial c hlow
  have hr1f := render_char_facts n1 h11 h12
  have hr2f := render_char_facts n2 h21 h22
  have hr1ne : n1.render ≠ [] := render_ne_nil n1 hip1
  have hr2ne : n2.render ≠ [] := render_ne_nil n2 hip2
  have hsemi1 : ';' ∉ b ++ w1 := by
    intro hc
    rcases List.mem_append.mp hc with hc | hc
    · exact (hbchars _ hc).2.1 rfl
    · exact absurd (hw1 _ hc) (by decide)
  have hsemi2 : ';' ∉ w2 ++ n1.render ++ w3 ++ '/' :: (w4 ++ n2.render) := by
    intro hc
    rcases List.mem_append.mp hc with hc | hc
    · rcases List.mem_append.mp hc with hc | hc
      · rcases List.mem_append.mp hc with hc | hc
        · exact absurd (hw2 _ hc) (by decide)
        · exact (hr1f _ hc).2.2.2.2.1 rfl
      · exact absurd (hw3 _ hc) (by decide)
    · rcases List.mem_cons.mp hc with hc | hc
      · exact absurd hc (by decide)
      · rcases List.mem_append.mp hc with hc | hc
        · exact absurd (hw4 _ hc) (by decide)
        · exact (hr2f _ hc).2.2.2.2.1 rfl
  have hslash1 : '/' ∉ w2 ++ n1.render ++ w3 := by
    intro hc
    rcases List.mem_append.mp hc with hc | hc
    · rcases List.mem_append.mp hc with hc | hc
      · exact absurd (hw2 _ hc) (by decide)
      · exact (hr1f _ hc).2.2.2.2.2 rfl
    · exact absurd (hw3 _ hc) (by decide)
  have hslash2 : '/' ∉ w4 ++ n2.render := by
    intro hc
    rcases List.mem_append.mp hc with hc | hc
    · exact absurd (hw4 _ hc) (by decide)
    · exact (hr2f _ hc).2.2.2.2.2 rfl
  have hvne : b ++ w1 ++ ';' :: (w2 ++ n1.render ++ w3 ++ '/' :: (w4 ++ n2.render)) ≠ [] := by
    intro he
    rw [List.append_eq_nil, List.append_eq_nil] at he
    exact hbne he.1.1
  have hsplit : splitOnChar ';'
      (b ++ w1 ++ ';' :: (w2 ++ n1.render ++ w3 ++ '/' :: (w4 ++ n2.render))) =
      [b ++ w1, w2 ++ n1.render ++ w3 ++ '/' :: (w4 ++ n2.render)] := by
    rw [splitOnChar_append _ hsemi1, splitOnChar_not_mem hsemi2]
  have htrim0 : trimSpace (b ++ w1) = b := by
    have := @trimSpace_sandwich b [] w1
      (fun c hc => (hbchars c hc).1) hbne (by intro c hc; simp at hc) hw1
    simpa using this
  have hsl : splitOnChar '/' (w2 ++ n1.render ++ w3 ++ '/' :: (w4 ++ n2.render)) =
      [w2 ++ n1.render ++ w3, w4 ++ n2.render] := by
    rw [splitOnChar_append _ hslash1, splitOnChar_not_mem hslash2]
  have htrima : trimSpace (w2 ++ n1.render ++ w3) = n1.render :=
    trimSpace_sandwich (fun c hc => (hr1f c hc).2.2.2.1) hr1ne hw2 hw3
  have htrimb : trimSpace (w4 ++ n2.render) = n2.render := by
    have := @trimSpace_sandwich n2.render w4 []
      (fun c hc => (hr2f c hc).2.2.2.1) hr2ne hw4 (by intro c hc; simp at hc)
    simpa using this
  have hpf1 := parseGoFloat_render n1 ⟨hip1, h11, h12⟩
  have hpf2 := parseGoFloat_render n2 ⟨hip2, h21, h22⟩
  have hscores : ∀ bb : Bool,
      parseScores bb (w2 ++ n1.render ++ w3 ++ '/' :: (w4 ++ n2.render)) =
        .ok (bb, .finite n1.val, .finite n2.val) := by
    intro bb
    rw [parseScores_cons2 _ _ _ _ hsl, htrima, htrimb, hpf1, hpf2]
  rw [parseSpamHeader_single _ (by simp [hvne])]
  rw [show (String.mk (b ++ w1 ++ ';' :: (w2 ++ n1.render ++ w3 ++ '/' :: (w4 ++ n2.render)))).data
      = b ++ w1 ++ ';' :: (w2 ++ n1.render ++ w3 ++ '/' :: (w4 ++ n2.render)) from rfl]
  rw [parseSpamValue_cons2 _ _ _ hsplit, htrim0]
  rcases hb4 with hbt | hbt | hbt | hbt <;> rw [hbt]
  · rw [if_pos (Or.inr rfl), hscores true]
    rfl
  · rw [if_neg (by decide), if_pos (Or.inr rfl), hscores false]
    rfl
  · rw [if_pos (Or.inl rfl), hscores true]
    rfl
  · rw [if_neg (by decide), if_pos (Or.inl rfl), hscores false]
    rfl

/-- C1 witness: the round-trip at the concrete verdict value
`"TRUe ; 4 / 7.0"`. -/
theorem verdict_roundtrip_w :
    parseSpamHeader [("Spam", String.mk
        (chars "TRUe" ++ [' '] ++ ';' :: ([' '] ++ Numeral.render ⟨false, [4], []⟩ ++
          [' '] ++ '/' :: ([' '] ++ Numeral.render ⟨false, [7], [0]⟩))))] =
      .ok (((asciiLower (chars "TRUe") == chars "yes") ||
            (asciiLower (chars "TRUe") == chars "true")),
           .finite (Numeral.val ⟨false, [4], []⟩),
           .finite (Numeral.val ⟨false, [7], [0]⟩)) :=
  verdict_roundtrip (chars "TRUe") [' '] [' '] [' '] [' ']
    ⟨false, [4], []⟩ ⟨false, [7], [0]⟩
    (by decide) (by decide) (by decide) (by decide) (by decide)
    (by decide) (by decide)

end Spamc
